import Mathlib

/-!
Shallow embedding of the secure-kit security event pipeline and adaptive
rate limiter (src/unnamed/part_009 `SecurityMonitor` and
src/src/core/advanced-rate-limiter.ts `AdvancedRateLimiter`).

Modelling conventions:
* `Date.now()` is modelled as an explicit `now : Nat` parameter; all reads of
  the clock within a single `recordEvent` call are modelled as the same
  instant (they occur within the same millisecond in the source).
* JavaScript `Map` is modelled as an insertion-ordered association list with
  `mapGet` / `mapSet` / `mapDelete`; `set` on a present key replaces in
  place, otherwise appends.
* Rule condition predicates may throw in JavaScript; a condition is modelled
  as `Nat → List SecurityEvent → Except String Bool` (the `Nat` is the
  ambient clock `Date.now()` that the default rules read; `.error` is a
  thrown exception).  Functions that can observe a throw return the state as
  mutated up to the throw point together with `Option String`, the
  propagated exception, matching JavaScript semantics where mutations made
  before a throw persist.
* `generateEventId` in the source appends a random suffix to the timestamp;
  the random suffix is irrelevant to every property here and is omitted.
* `EventEmitter.emit` calls carry no monitor state and are omitted.
-/

set_option autoImplicit false

namespace SecureKit

/-- JavaScript `Map.get`: the value of the first (unique) entry with the key. -/
def mapGet {κ α : Type} [DecidableEq κ] : List (κ × α) → κ → Option α
  | [], _ => none
  | p :: rest, k => if p.1 = k then some p.2 else mapGet rest k

/-- JavaScript `Map.set`: replace in place when the key is present,
otherwise append at the end (insertion order preserved). -/
def mapSet {κ α : Type} [DecidableEq κ] (m : List (κ × α)) (k : κ) (v : α) :
    List (κ × α) :=
  if m.any (fun p => p.1 == k) then
    m.map (fun p => if p.1 = k then (k, v) else p)
  else
    m ++ [(k, v)]

/-- JavaScript `Map.delete`. -/
def mapDelete {κ α : Type} [DecidableEq κ] (m : List (κ × α)) (k : κ) :
    List (κ × α) :=
  m.filter (fun p => p.1 != k)

/-- JavaScript `x || d` for an optional numeric configuration field:
`undefined` and `0` are falsy and fall through to the default. -/
def jsOr (x : Option Nat) (d : Nat) : Nat :=
  match x with
  | none => d
  | some n => if n = 0 then d else n

/-- JavaScript `Array.prototype.slice(start)` with a possibly negative
start index (`slice(-0)` is `slice(0)`). -/
def jsSlice {α : Type} (l : List α) (start : Int) : List α :=
  let len : Int := l.length
  let k : Int := if start < 0 then max (len + start) 0 else min start len
  l.drop k.toNat

/-- `Math.ceil (a / b)` for non-negative integers. -/
def ceilDiv (a b : Nat) : Nat := (a + b - 1) / b

/-- One step of the count-map folds
(`m.set(k, (m.get(k) || 0) + 1)`). -/
def bumpCount {κ : Type} [DecidableEq κ] (m : List (κ × Nat)) (k : κ) :
    List (κ × Nat) :=
  mapSet m k (jsOr (mapGet m k) 0 + 1)

/-! ## Advanced rate limiter (src/src/core/advanced-rate-limiter.ts) -/

structure RateLimitEntry where
  count : Nat
  resetTime : Nat
  violations : Nat
  deriving DecidableEq, Repr

structure AdvancedRateLimitOptions where
  windowMs : Option Nat
  max : Option Nat
  maxRequests : Option Nat
  deriving DecidableEq, Repr

structure AllowResult where
  allowed : Bool
  remaining : Nat
  resetTime : Nat
  retryAfter : Option Nat
  deriving DecidableEq, Repr

structure RateLimiterState where
  store : List (String × RateLimitEntry)
  config : AdvancedRateLimitOptions
  deriving Repr

/-- Constructor: `this.config = { windowMs: 15*60*1000, max: 100,
maxRequests: 100, ...config }` (object spread; absent fields take the
defaults). -/
def mkRateLimiter (config : AdvancedRateLimitOptions) : RateLimiterState :=
  { store := []
    config :=
      { windowMs := some (config.windowMs.getD (15 * 60 * 1000))
        max := some (config.max.getD 100)
        maxRequests := some (config.maxRequests.getD 100) } }

/-- `limits.windowMs = this.config.windowMs || 15 * 60 * 1000` -/
def effWindow (c : AdvancedRateLimitOptions) : Nat :=
  jsOr c.windowMs (15 * 60 * 1000)

/-- `limits.maxRequests = this.config.maxRequests || this.config.max || 100` -/
def effMax (c : AdvancedRateLimitOptions) : Nat :=
  jsOr c.maxRequests (jsOr c.max 100)

/-- `AdvancedRateLimiter.isAllowed`.  In the denied branch the entry is
unexpired (`resetTime ≥ now`), so the natural subtraction in `retryAfter`
agrees with the JavaScript difference. -/
def isAllowed (s : RateLimiterState) (now : Nat) (identifier : String) :
    RateLimiterState × AllowResult :=
  let windowMs := effWindow s.config
  let maxRequests := effMax s.config
  let entry : RateLimitEntry :=
    match mapGet s.store identifier with
    | some e =>
        if e.resetTime < now then
          { count := 0, resetTime := now + windowMs, violations := e.violations }
        else e
    | none => { count := 0, resetTime := now + windowMs, violations := 0 }
  if maxRequests ≤ entry.count then
    let e := { entry with violations := entry.violations + 1 }
    ({ s with store := mapSet s.store identifier e },
     { allowed := false
       remaining := 0
       resetTime := entry.resetTime
       retryAfter := some (ceilDiv (entry.resetTime - now) 1000) })
  else
    let e := { entry with count := entry.count + 1 }
    ({ s with store := mapSet s.store identifier e },
     { allowed := true
       remaining := maxRequests - e.count
       resetTime := e.resetTime
       retryAfter := none })

/-- `AdvancedRateLimiter.cleanup`: delete expired entries with zero
violations. -/
def cleanup (s : RateLimiterState) (now : Nat) : RateLimiterState :=
  { s with store :=
      s.store.filter (fun p => !(decide (p.2.resetTime < now) && decide (p.2.violations = 0))) }

/-- `AdvancedRateLimiter.reset`. -/
def rlReset (s : RateLimiterState) (identifier : String) : RateLimiterState :=
  { s with store := mapDelete s.store identifier }

/-- A sequence of `isAllowed` calls for one key at the given instants,
returning the final state and the list of results in call order. -/
def runCalls : RateLimiterState → String → List Nat → RateLimiterState × List AllowResult
  | s, _, [] => (s, [])
  | s, k, t :: ts =>
    let p := isAllowed s t k
    let q := runCalls p.1 k ts
    (q.1, p.2 :: q.2)

/-! ## Security monitor (src/unnamed/part_009) -/

inductive Severity
  | low
  | medium
  | high
  | critical
  deriving DecidableEq, Repr

inductive SecurityEventType
  | rate_limit_exceeded
  | suspicious_input
  | authentication_failure
  | unauthorized_access
  | sql_injection_attempt
  | xss_attempt
  | csrf_token_mismatch
  | file_upload_violation
  | security_header_missing
  | malformed_request
  | brute_force_attempt
  | anomalous_behavior
  deriving DecidableEq, Repr

/-- `Object.values(SecurityEventType)` in declaration order. -/
def allEventTypes : List SecurityEventType :=
  [.rate_limit_exceeded, .suspicious_input, .authentication_failure,
   .unauthorized_access, .sql_injection_attempt, .xss_attempt,
   .csrf_token_mismatch, .file_upload_violation, .security_header_missing,
   .malformed_request, .brute_force_attempt, .anomalous_behavior]

structure SecurityEvent where
  id : String
  timestamp : Nat
  type : SecurityEventType
  severity : Severity
  source : String
  details : List (String × String)
  metadata : List (String × String)
  deriving DecidableEq, Repr

structure SourceCount where
  source : String
  count : Nat
  deriving DecidableEq, Repr

structure AlertThresholds where
  rateLimit : Nat
  authFailures : Nat
  injectionAttempts : Nat
  deriving DecidableEq, Repr

structure SecurityMetrics where
  totalEvents : Nat
  eventsByType : SecurityEventType → Nat
  eventsBySeverity : Severity → Nat
  recentEvents : List SecurityEvent
  topSources : List SourceCount
  alertThresholds : AlertThresholds

inductive RuleAction
  | log
  | alert
  | block
  deriving DecidableEq, Repr

def actionToString : RuleAction → String
  | .log => "log"
  | .alert => "alert"
  | .block => "block"

structure ThreatDetectionRule where
  id : String
  name : String
  description : String
  eventTypes : List SecurityEventType
  condition : Nat → List SecurityEvent → Except String Bool
  action : RuleAction
  severity : Severity
  cooldown : Nat

structure MonitorState where
  events : List SecurityEvent
  metrics : SecurityMetrics
  threatRules : List (String × ThreatDetectionRule)
  lastRuleTrigger : List (String × Nat)
  maxEventsHistory : Nat

/-- The caller-supplied part of an event (`Omit<SecurityEvent, 'id' | 'timestamp'>`). -/
structure EventInput where
  type : SecurityEventType
  severity : Severity
  source : String
  details : List (String × String)
  metadata : List (String × String)
  deriving DecidableEq, Repr

/-- `SecurityMonitor.initializeMetrics`. -/
def initializeMetrics : SecurityMetrics :=
  { totalEvents := 0
    eventsByType := fun _ => 0
    eventsBySeverity := fun _ => 0
    recentEvents := []
    topSources := []
    alertThresholds := { rateLimit := 100, authFailures := 10, injectionAttempts := 5 } }

/-- `generateEventId` (`sec_${Date.now()}_${random}`; the random suffix is
omitted as no property depends on it). -/
def generateEventId (now : Nat) : String :=
  "sec_" ++ toString now

/-- Stable insertion for a descending sort by a numeric key: the new
element goes before the first element whose key is `≤` its own, hence after
every earlier element with an equal key.  Together with `sortDescBy` this
models `Array.prototype.sort((a, b) => b.count - a.count)`, which
ECMAScript requires to be a stable sort consistent with the comparator; a
stable sort's output is uniquely determined, so this insertion sort
computes it. -/
def insertDescBy {α : Type} (key : α → Nat) (x : α) : List α → List α
  | [] => [x]
  | y :: ys => if key y ≤ key x then x :: y :: ys else y :: insertDescBy key x ys

/-- Stable descending sort by a numeric key (model of the JS `sort` calls
in `updateTopSources` and `generateReport`). -/
def sortDescBy {α : Type} (key : α → Nat) : List α → List α
  | [] => []
  | x :: xs => insertDescBy key x (sortDescBy key xs)

/-- `SecurityMonitor.updateTopSources`: bump (or insert at the end) the
count for the source, re-sort descending by count, keep the first 10. -/
def updateTopSources (tops : List SourceCount) (source : String) : List SourceCount :=
  let bumped :=
    if tops.any (fun sc => sc.source == source) then
      tops.map (fun sc => if sc.source = source then { sc with count := sc.count + 1 } else sc)
    else
      tops ++ [{ source := source, count := 1 }]
  (sortDescBy (fun sc => sc.count) bumped).take 10

/-- `SecurityMonitor.updateMetrics`. -/
def updateMetrics (m : SecurityMetrics) (event : SecurityEvent) : SecurityMetrics :=
  let recent := m.recentEvents ++ [event]
  { m with
    totalEvents := m.totalEvents + 1
    eventsByType := fun t => if t = event.type then m.eventsByType t + 1 else m.eventsByType t
    eventsBySeverity := fun sv => if sv = event.severity then m.eventsBySeverity sv + 1 else m.eventsBySeverity sv
    recentEvents := if 10 < recent.length then recent.tail else recent
    topSources := updateTopSources m.topSources event.source }

/-- `SecurityMonitor.handleThreatDetection`: synthesize an
anomalous-behavior event, push it onto the log (note: without the history
cap applied by `recordEvent`) and update the metrics.  The `emit` calls
carry no state. -/
def handleThreatDetection (s : MonitorState) (now : Nat)
    (rule : ThreatDetectionRule) (triggerEvent : SecurityEvent) : MonitorState :=
  let threatEvent : SecurityEvent :=
    { id := generateEventId now
      timestamp := now
      type := .anomalous_behavior
      severity := rule.severity
      source := triggerEvent.source
      details :=
        [("ruleName", rule.name), ("ruleDescription", rule.description),
         ("triggerEvent", triggerEvent.id), ("action", actionToString rule.action)]
      metadata := triggerEvent.metadata }
  { s with
    events := s.events ++ [threatEvent]
    metrics := updateMetrics s.metrics threatEvent }

/-- The loop body of `SecurityMonitor.checkThreatRules` over the remaining
rule entries.  Returns the state as mutated so far, the ids of the rules
that fired (in firing order) and, if some condition threw, the propagated
exception (which aborts the loop, as in JavaScript).  The cooldown guard is
`lastTrigger && Date.now() - lastTrigger < rule.cooldown`: a missing or
zero `lastTrigger` is falsy and skips the guard; the subtraction is done in
`Int` as in JavaScript. -/
def checkRulesFrom (now : Nat) (ev : SecurityEvent) :
    List (String × ThreatDetectionRule) → MonitorState →
    MonitorState × List String × Option String
  | [], s => (s, [], none)
  | (ruleId, rule) :: rest, s =>
    if ev.type ∈ rule.eventTypes then
      let coolingDown : Bool :=
        match mapGet s.lastRuleTrigger ruleId with
        | some t => decide (t ≠ 0) && decide ((now : Int) - t < (rule.cooldown : Int))
        | none => false
      if coolingDown then checkRulesFrom now ev rest s
      else
        match rule.condition now s.events with
        | .error msg => (s, [], some msg)
        | .ok false => checkRulesFrom now ev rest s
        | .ok true =>
          let s1 := { s with lastRuleTrigger := mapSet s.lastRuleTrigger ruleId now }
          let s2 := handleThreatDetection s1 now rule ev
          let r := checkRulesFrom now ev rest s2
          (r.1, ruleId :: r.2.1, r.2.2)
    else checkRulesFrom now ev rest s

/-- `SecurityMonitor.checkThreatRules` iterates the rule map in insertion
order (the map is not mutated during the loop). -/
def checkThreatRules (s : MonitorState) (now : Nat) (ev : SecurityEvent) :
    MonitorState × List String × Option String :=
  checkRulesFrom now ev s.threatRules s

/-- The full event assembled by `recordEvent` from the caller's input. -/
def mkFullEvent (now : Nat) (e : EventInput) : SecurityEvent :=
  { id := generateEventId now
    timestamp := now
    type := e.type
    severity := e.severity
    source := e.source
    details := e.details
    metadata := e.metadata }

/-- The push-then-evict step of `recordEvent`
(`events.push(...)`; `if (events.length > maxEventsHistory) events.shift()`). -/
def appendCapped (s : MonitorState) (e : SecurityEvent) : List SecurityEvent :=
  let events1 := s.events ++ [e]
  if s.maxEventsHistory < events1.length then events1.tail else events1

/-- `SecurityMonitor.recordEvent`: build the full event, push it, evict the
oldest when over capacity, update metrics, run the threat rules.  Returns
the resulting state, the full event, the fired rule ids and the exception
propagated by a throwing rule condition, if any. -/
def recordEvent (s : MonitorState) (now : Nat) (e : EventInput) :
    MonitorState × SecurityEvent × List String × Option String :=
  let fullEvent := mkFullEvent now e
  let s1 : MonitorState :=
    { s with events := appendCapped s fullEvent, metrics := updateMetrics s.metrics fullEvent }
  let r := checkThreatRules s1 now fullEvent
  (r.1, fullEvent, r.2.1, r.2.2)

/-- Run a sequence of `recordEvent` calls (each given as a call instant and
an event input), keeping only the final state. -/
def runEvents : MonitorState → List (Nat × EventInput) → MonitorState
  | s, [] => s
  | s, (now, e) :: rest => runEvents (recordEvent s now e).1 rest

/-- The rule ids fired across a sequence of `recordEvent` calls, in order. -/
def allFired : MonitorState → List (Nat × EventInput) → List String
  | _, [] => []
  | s, (now, e) :: rest =>
    let r := recordEvent s now e
    r.2.2.1 ++ allFired r.1 rest

/-- `SecurityMonitor.getMetrics` (the source takes a shallow copy). -/
def getMetrics (s : MonitorState) : SecurityMetrics := s.metrics

/-- `SecurityMonitor.getRecentEvents` (`this.events.slice(-limit)`; the
source default for `limit` is 100). -/
def getRecentEvents (s : MonitorState) (limit : Nat) : List SecurityEvent :=
  jsSlice s.events (-(limit : Int))

/-- `SecurityMonitor.getEventsInRange` (inclusive bounds). -/
def getEventsInRange (s : MonitorState) (startTime endTime : Nat) : List SecurityEvent :=
  s.events.filter (fun ev => decide (startTime ≤ ev.timestamp) && decide (ev.timestamp ≤ endTime))

/-- `SecurityMonitor.isSuspiciousSource` (`timeWindow` defaults to 300000 in
the source; the cutoff comparison is done in `Int` as in JavaScript, where
`now - timeWindow` may be negative). -/
def isSuspiciousSource (s : MonitorState) (now : Nat) (source : String)
    (timeWindow : Nat) : Bool :=
  let cutoff : Int := (now : Int) - (timeWindow : Int)
  let recentEvents := s.events.filter (fun ev =>
    ev.source == source && decide (cutoff < (ev.timestamp : Int)) &&
      (ev.severity == Severity.high || ev.severity == Severity.critical))
  5 < recentEvents.length

/-- `SecurityMonitor.addThreatRule`. -/
def addThreatRule (s : MonitorState) (rule : ThreatDetectionRule) : MonitorState :=
  { s with threatRules := mapSet s.threatRules rule.id rule }

/-- `SecurityMonitor.removeThreatRule`. -/
def removeThreatRule (s : MonitorState) (ruleId : String) : MonitorState :=
  { s with
    threatRules := mapDelete s.threatRules ruleId
    lastRuleTrigger := mapDelete s.lastRuleTrigger ruleId }

/-- `SecurityMonitor.clear`: empties the log, resets the metrics and clears
the cooldown state (the rule registry itself is kept). -/
def clear (s : MonitorState) : MonitorState :=
  { s with
    events := []
    metrics := initializeMetrics
    lastRuleTrigger := [] }

structure ReportSummary where
  totalEvents : Nat
  criticalEvents : Nat
  highSeverityEvents : Nat
  uniqueSources : Nat
  deriving DecidableEq, Repr

structure TypeCount where
  type : SecurityEventType
  count : Nat
  deriving DecidableEq, Repr

structure Report where
  summary : ReportSummary
  topThreats : List TypeCount
  suspiciousSources : List String
  recommendations : List String
  deriving DecidableEq, Repr

/-- `SecurityMonitor.generateRecommendations`. -/
def generateRecommendations (events : List SecurityEvent) : List String :=
  let criticalCount := (events.filter (fun e => e.severity == Severity.critical)).length
  let highCount := (events.filter (fun e => e.severity == Severity.high)).length
  let injectionAttempts := (events.filter (fun e =>
    e.type == SecurityEventType.sql_injection_attempt ||
      e.type == SecurityEventType.xss_attempt)).length
  let authFailures := (events.filter (fun e =>
    e.type == SecurityEventType.authentication_failure)).length
  (if 0 < criticalCount then
    [toString criticalCount ++ " critical security events detected - immediate action required"]
   else []) ++
  (if 10 < highCount then
    ["High volume of high-severity events - consider tightening security policies"]
   else []) ++
  (if 5 < injectionAttempts then
    ["Multiple injection attempts detected - review input validation and sanitization"]
   else []) ++
  (if 20 < authFailures then
    ["High number of authentication failures - consider implementing account lockout policies"]
   else [])

/-- `SecurityMonitor.generateReport`. -/
def generateReport (s : MonitorState) (startTime endTime : Nat) : Report :=
  let events := getEventsInRange s startTime endTime
  let summary : ReportSummary :=
    { totalEvents := events.length
      criticalEvents := (events.filter (fun e => e.severity == Severity.critical)).length
      highSeverityEvents := (events.filter (fun e => e.severity == Severity.high)).length
      uniqueSources := (events.map (fun e => e.source)).dedup.length }
  let threatCounts := events.foldl (fun m e => bumpCount m e.type) []
  let sourceCounts := events.foldl (fun m e => bumpCount m e.source) []
  let topThreats :=
    ((sortDescBy (fun tc => tc.count)
        (threatCounts.map (fun p => TypeCount.mk p.1 p.2))).take 10)
  let suspiciousSources :=
    (sourceCounts.filter (fun p => decide (10 < p.2))).map (fun p => p.1)
  { summary := summary
    topThreats := topThreats
    suspiciousSources := suspiciousSources
    recommendations := generateRecommendations events }

/-- `SecurityMonitor.loadDefaultThreatRules`. -/
def defaultThreatRules : List ThreatDetectionRule :=
  [{ id := "brute_force_detection"
     name := "Brute Force Attack Detection"
     description := "Detects multiple authentication failures from the same source"
     eventTypes := [.authentication_failure]
     condition := fun now events =>
       let recent := events.filter (fun e =>
         e.type == SecurityEventType.authentication_failure &&
           decide ((now : Int) - (e.timestamp : Int) < 300000))
       let sourceGroups := recent.foldl (fun m e => bumpCount m e.source) []
       .ok ((sourceGroups.map (fun p => p.2)).any (fun count => decide (5 ≤ count)))
     action := .block
     severity := .high
     cooldown := 600000 },
   { id := "injection_attack_pattern"
     name := "Injection Attack Pattern"
     description := "Detects patterns of SQL/NoSQL injection attempts"
     eventTypes := [.sql_injection_attempt]
     condition := fun now events =>
       let recent := events.filter (fun e =>
         e.type == SecurityEventType.sql_injection_attempt &&
           decide ((now : Int) - (e.timestamp : Int) < 600000))
       .ok (decide (3 ≤ recent.length))
     action := .alert
     severity := .high
     cooldown := 300000 },
   { id := "rate_limit_abuse"
     name := "Rate Limit Abuse"
     description := "Detects persistent rate limit violations"
     eventTypes := [.rate_limit_exceeded]
     condition := fun now events =>
       let recent := events.filter (fun e =>
         e.type == SecurityEventType.rate_limit_exceeded &&
           decide ((now : Int) - (e.timestamp : Int) < 3600000))
       let sourceGroups := recent.foldl (fun m e => bumpCount m e.source) []
       .ok ((sourceGroups.map (fun p => p.2)).any (fun count => decide (10 ≤ count)))
     action := .block
     severity := .medium
     cooldown := 1800000 }]

structure MonitorConfig where
  maxEventsHistory : Option Nat
  threatDetectionRules : List ThreatDetectionRule

/-- The `SecurityMonitor` constructor: `maxEventsHistory || 10000`, default
rules, then the configured custom rules, all registered via
`addThreatRule`. -/
def mkSecurityMonitor (config : MonitorConfig) : MonitorState :=
  let s0 : MonitorState :=
    { events := []
      metrics := initializeMetrics
      threatRules := []
      lastRuleTrigger := []
      maxEventsHistory := jsOr config.maxEventsHistory 10000 }
  let s1 := defaultThreatRules.foldl addThreatRule s0
  config.threatDetectionRules.foldl addThreatRule s1

/-- `sum(eventsByType.values())`: the sum of the per-type counters over the
full enumeration of event types. -/
def sumByType (f : SecurityEventType → Nat) : Nat :=
  (allEventTypes.map f).sum

/-- The number of events of a given source in a list (used to state the
report properties). -/
def countSource (events : List SecurityEvent) (source : String) : Nat :=
  (events.filter (fun e => e.source == source)).length

/-- Position of the first event with the given source in the event stream. -/
def firstSeenIndex (events : List SecurityEvent) (source : String) : Nat :=
  (events.map (fun e => e.source)).indexOf source

/-- The tie-break property claimed of `topSources`: among entries with equal
counts, the source first seen earlier in the event stream appears earlier. -/
def firstSeenTieBreak (events : List SecurityEvent) (tops : List SourceCount) : Prop :=
  tops.Pairwise (fun a b =>
    a.count = b.count → firstSeenIndex events a.source ≤ firstSeenIndex events b.source)

/-! Concrete scenarios used by witnesses and counterexamples. -/

/-- A custom rule on XSS events whose condition always holds. -/
def alwaysRule : ThreatDetectionRule :=
  { id := "always_fire"
    name := "always"
    description := "fires on every xss event"
    eventTypes := [.xss_attempt]
    condition := fun _ _ => .ok true
    action := .log
    severity := .low
    cooldown := 1000 }

/-- A custom rule on XSS events whose condition throws. -/
def throwRule : ThreatDetectionRule :=
  { id := "throwing_rule"
    name := "throwing"
    description := "condition throws"
    eventTypes := [.xss_attempt]
    condition := fun _ _ => .error "boom"
    action := .log
    severity := .low
    cooldown := 1000 }

/-- A low-severity XSS event input from the given source. -/
def xssInput (src : String) : EventInput :=
  { type := .xss_attempt, severity := .low, source := src, details := [], metadata := [] }

/-- A monitor with capacity 1 and a rule that always fires. -/
def capOneMonitor : MonitorState :=
  mkSecurityMonitor { maxEventsHistory := some 1, threatDetectionRules := [alwaysRule] }

/-- A monitor registering a throwing rule ahead of an always-firing rule. -/
def throwingMonitor : MonitorState :=
  mkSecurityMonitor { maxEventsHistory := none, threatDetectionRules := [throwRule, alwaysRule] }

/-- A monitor with only the default rules (none of which watch XSS events). -/
def plainMonitor : MonitorState :=
  mkSecurityMonitor { maxEventsHistory := none, threatDetectionRules := [] }

/-- Four events: sources A, B, B, A — both sources end with count 2, A seen
first. -/
def tieBreakRun : MonitorState :=
  runEvents plainMonitor
    [(1, xssInput "A"), (2, xssInput "B"), (3, xssInput "B"), (4, xssInput "A")]

/-- A monitor whose single rule (`alwaysRule`, cooldown 1000) last fired at
instant 5. -/
def c5State : MonitorState :=
  { events := []
    metrics := initializeMetrics
    threatRules := [("always_fire", alwaysRule)]
    lastRuleTrigger := [("always_fire", 5)]
    maxEventsHistory := 10 }

/-! ## Theorems -/

section MapLemmas

variable {κ α : Type} [DecidableEq κ]

theorem mapGet_replace_self (k : κ) (v : α) :
    ∀ m : List (κ × α), m.any (fun p => p.1 == k) = true →
      mapGet (m.map (fun p => if p.1 = k then (k, v) else p)) k = some v := by
  intro m
  induction m with
  | nil => intro h; simp at h
  | cons p rest ih =>
    intro h
    by_cases hp : p.1 = k
    · simp [mapGet, hp]
    · simp only [List.any_cons, Bool.or_eq_true, beq_iff_eq] at h
      rcases h with h | h
      · exact absurd h hp
      · simpa [mapGet, hp] using ih (by simpa using h)

theorem mapGet_replace_ne (k k' : κ) (v : α) (hne : k ≠ k') :
    ∀ m : List (κ × α),
      mapGet (m.map (fun p => if p.1 = k then (k, v) else p)) k' = mapGet m k' := by
  intro m
  induction m with
  | nil => rfl
  | cons p rest ih =>
    by_cases hp : p.1 = k
    · have : p.1 ≠ k' := by rw [hp]; exact hne
      simp [mapGet, hp, hne, this, ih]
    · have hfp : (if p.1 = k then (k, v) else p) = p := if_neg hp
      simp [mapGet, hfp, ih]

theorem mapGet_none_of_not_any (k : κ) :
    ∀ m : List (κ × α), m.any (fun p => p.1 == k) = false → mapGet m k = none := by
  intro m
  induction m with
  | nil => intro _; rfl
  | cons p rest ih =>
    intro h
    simp only [List.any_cons, Bool.or_eq_false_iff, beq_eq_false_iff_ne] at h
    simp [mapGet, h.1, ih (by simp [h.2])]

theorem mapGet_append (k : κ) (m m' : List (κ × α)) :
    mapGet (m ++ m') k = (mapGet m k).elim (mapGet m' k) some := by
  induction m with
  | nil => rfl
  | cons p rest ih =>
    by_cases hp : p.1 = k
    · simp [mapGet, hp]
    · simp [mapGet, hp, ih]

theorem mapGet_mapSet_self (m : List (κ × α)) (k : κ) (v : α) :
    mapGet (mapSet m k v) k = some v := by
  rw [mapSet]
  by_cases h : m.any (fun p => p.1 == k) = true
  · simp only [h, if_true]
    exact mapGet_replace_self k v m h
  · simp only [Bool.not_eq_true] at h
    simp only [h, Bool.false_eq_true, if_false]
    rw [mapGet_append, mapGet_none_of_not_any k m h]
    simp [mapGet, Option.elim]

theorem mapGet_mapSet_ne (m : List (κ × α)) (k k' : κ) (v : α) (hne : k ≠ k') :
    mapGet (mapSet m k v) k' = mapGet m k' := by
  rw [mapSet]
  by_cases h : m.any (fun p => p.1 == k) = true
  · simp only [h, if_true]
    exact mapGet_replace_ne k k' v hne m
  · simp only [Bool.not_eq_true] at h
    simp only [h, Bool.false_eq_true, if_false]
    rw [mapGet_append]
    cases hm : mapGet m k' with
    | none => simp [mapGet, Option.elim, hne]
    | some w => rfl

theorem mapGet_mapSet_isSome (m : List (κ × α)) (k k' : κ) (v : α)
    (h : (mapGet m k').isSome) : (mapGet (mapSet m k v) k').isSome := by
  by_cases hk : k = k'
  · subst hk; rw [mapGet_mapSet_self]; rfl
  · rw [mapGet_mapSet_ne m k k' v hk]; exact h

theorem mem_mapSet_self (m : List (κ × α)) (k : κ) (v v' : α)
    (h : (k, v') ∈ mapSet m k v) : v' = v := by
  rw [mapSet] at h
  by_cases hm : m.any (fun p => p.1 == k) = true
  · simp only [hm, if_true, List.mem_map] at h
    rcases h with ⟨p, _, hp⟩
    by_cases hpk : p.1 = k
    · rw [if_pos hpk] at hp
      injection hp with h1 h2
      exact h2.symm
    · rw [if_neg hpk] at hp
      have : p.1 = k := by rw [hp]
      exact absurd this hpk
  · simp only [Bool.not_eq_true] at hm
    simp only [hm, Bool.false_eq_true, if_false, List.mem_append, List.mem_singleton] at h
    rcases h with h | h
    · exfalso
      have htrue : m.any (fun p => p.1 == k) = true :=
        List.any_eq_true.2 ⟨(k, v'), h, by simp⟩
      rw [hm] at htrue
      exact Bool.false_ne_true htrue
    · injection h

theorem mapGet_mapDelete_self (m : List (κ × α)) (k : κ) :
    mapGet (mapDelete m k) k = none := by
  induction m with
  | nil => rfl
  | cons p rest ih =>
    by_cases hp : p.1 = k
    · simpa [mapDelete, hp] using ih
    · simpa [mapDelete, mapGet, hp] using ih

end MapLemmas

section MonitorLemmas

/-- Incrementing one event type's counter raises the total over all types
by one. -/
theorem sumByType_bump (f : SecurityEventType → Nat) (ty : SecurityEventType) :
    sumByType (fun t => if t = ty then f t + 1 else f t) = sumByType f + 1 := by
  cases ty <;> simp [sumByType, allEventTypes] <;> omega

theorem updateMetrics_totalEvents (m : SecurityMetrics) (e : SecurityEvent) :
    (updateMetrics m e).totalEvents = m.totalEvents + 1 := rfl

theorem updateMetrics_sumByType (m : SecurityMetrics) (e : SecurityEvent) :
    sumByType (updateMetrics m e).eventsByType = sumByType m.eventsByType + 1 :=
  sumByType_bump m.eventsByType e.type

theorem handleThreatDetection_spec (s : MonitorState) (now : Nat)
    (rule : ThreatDetectionRule) (ev : SecurityEvent) :
    (handleThreatDetection s now rule ev).metrics.totalEvents = s.metrics.totalEvents + 1 ∧
    sumByType (handleThreatDetection s now rule ev).metrics.eventsByType
        = sumByType s.metrics.eventsByType + 1 ∧
    (handleThreatDetection s now rule ev).events.length = s.events.length + 1 ∧
    (handleThreatDetection s now rule ev).threatRules = s.threatRules ∧
    (handleThreatDetection s now rule ev).lastRuleTrigger = s.lastRuleTrigger ∧
    (handleThreatDetection s now rule ev).maxEventsHistory = s.maxEventsHistory := by
  refine ⟨rfl, ?_, by simp [handleThreatDetection], rfl, rfl, rfl⟩
  exact updateMetrics_sumByType s.metrics _

/-- Structural facts about one pass of the rule loop: every fired rule is a
registered rule watching the recorded event's type; each firing appends
exactly one synthetic event and bumps `totalEvents` and the per-type sum by
one; at most one firing per registered rule; the rule registry, capacity
and cooldown-map keys are preserved. -/
theorem checkRulesFrom_spec (now : Nat) (ev : SecurityEvent) :
    ∀ (rs : List (String × ThreatDetectionRule)) (s : MonitorState),
      (∀ rid ∈ (checkRulesFrom now ev rs s).2.1,
          ∃ rule, (rid, rule) ∈ rs ∧ ev.type ∈ rule.eventTypes) ∧
      (checkRulesFrom now ev rs s).1.metrics.totalEvents
          = s.metrics.totalEvents + (checkRulesFrom now ev rs s).2.1.length ∧
      sumByType (checkRulesFrom now ev rs s).1.metrics.eventsByType
          = sumByType s.metrics.eventsByType + (checkRulesFrom now ev rs s).2.1.length ∧
      (checkRulesFrom now ev rs s).1.events.length
          = s.events.length + (checkRulesFrom now ev rs s).2.1.length ∧
      (checkRulesFrom now ev rs s).2.1.length ≤ rs.length ∧
      (checkRulesFrom now ev rs s).1.threatRules = s.threatRules ∧
      (checkRulesFrom now ev rs s).1.maxEventsHistory = s.maxEventsHistory ∧
      (∀ k, (mapGet s.lastRuleTrigger k).isSome →
        (mapGet (checkRulesFrom now ev rs s).1.lastRuleTrigger k).isSome) := by
  intro rs
  induction rs with
  | nil =>
    intro s
    simp [checkRulesFrom]
  | cons hd rest ih =>
    intro s
    obtain ⟨rid, rule⟩ := hd
    by_cases hty : ev.type ∈ rule.eventTypes
    · rw [checkRulesFrom, if_pos hty]
      cases hcd : (match mapGet s.lastRuleTrigger rid with
        | some t => decide (t ≠ 0) && decide ((now : Int) - t < (rule.cooldown : Int))
        | none => false) with
      | true =>
        simp only [hcd, if_true]
        obtain ⟨h1, h2, h3, h4, h5, h6, h7, h8⟩ := ih s
        exact ⟨fun r hr => (h1 r hr).imp (fun ru hru => ⟨List.mem_cons_of_mem _ hru.1, hru.2⟩),
          h2, h3, h4, Nat.le_succ_of_le h5, h6, h7, h8⟩
      | false =>
        simp only [hcd, Bool.false_eq_true, if_false]
        cases hc : rule.condition now s.events with
        | error msg =>
          simp [hc]
        | ok b =>
          cases b with
          | false =>
            simp only [hc]
            obtain ⟨h1, h2, h3, h4, h5, h6, h7, h8⟩ := ih s
            exact ⟨fun r hr => (h1 r hr).imp (fun ru hru => ⟨List.mem_cons_of_mem _ hru.1, hru.2⟩),
              h2, h3, h4, Nat.le_succ_of_le h5, h6, h7, h8⟩
          | true =>
            simp only [hc]
            obtain ⟨g1, g2, g3, g4, g5, g6⟩ := handleThreatDetection_spec
              { s with lastRuleTrigger := mapSet s.lastRuleTrigger rid now } now rule ev
            simp only at g1 g2 g3 g4 g5 g6
            obtain ⟨h1, h2, h3, h4, h5, h6, h7, h8⟩ :=
              ih (handleThreatDetection
                { s with lastRuleTrigger := mapSet s.lastRuleTrigger rid now } now rule ev)
            refine ⟨?_, ?_, ?_, ?_, ?_, ?_, ?_, ?_⟩
            · intro r hr
              rcases List.mem_cons.1 hr with hr | hr
              · exact ⟨rule, by simp [hr], hty⟩
              · exact (h1 r hr).imp (fun ru hru => ⟨List.mem_cons_of_mem _ hru.1, hru.2⟩)
            · simp only [List.length_cons]
              omega
            · simp only [List.length_cons]
              omega
            · simp only [List.length_cons]
              omega
            · simpa using Nat.succ_le_succ h5
            · rw [h6, g4]
            · rw [h7, g6]
            · intro k hk
              apply h8
              rw [g5]
              exact mapGet_mapSet_isSome _ _ _ _ hk
    · rw [checkRulesFrom, if_neg hty]
      obtain ⟨h1, h2, h3, h4, h5, h6, h7, h8⟩ := ih s
      exact ⟨fun r hr => (h1 r hr).imp (fun ru hru => ⟨List.mem_cons_of_mem _ hru.1, hru.2⟩),
        h2, h3, h4, Nat.le_succ_of_le h5, h6, h7, h8⟩

theorem appendCapped_length_le (s : MonitorState) (e : SecurityEvent) :
    (appendCapped s e).length ≤ s.events.length + 1 := by
  rw [appendCapped]
  by_cases h : s.maxEventsHistory < (s.events ++ [e]).length
  · simp only [h, if_true]
    simp
  · simp only [h, if_false]
    simp

/-- `recordEvent` level consequences of `checkRulesFrom_spec`. -/
theorem recordEvent_spec (s : MonitorState) (now : Nat) (e : EventInput) :
    (∀ rid ∈ (recordEvent s now e).2.2.1,
        ∃ rule, (rid, rule) ∈ s.threatRules ∧ e.type ∈ rule.eventTypes) ∧
    (recordEvent s now e).1.metrics.totalEvents
        = s.metrics.totalEvents + 1 + (recordEvent s now e).2.2.1.length ∧
    sumByType (recordEvent s now e).1.metrics.eventsByType
        = sumByType s.metrics.eventsByType + 1 + (recordEvent s now e).2.2.1.length ∧
    (recordEvent s now e).1.events.length
        ≤ s.events.length + 1 + (recordEvent s now e).2.2.1.length ∧
    (recordEvent s now e).2.2.1.length ≤ s.threatRules.length ∧
    (recordEvent s now e).1.threatRules = s.threatRules ∧
    (recordEvent s now e).1.maxEventsHistory = s.maxEventsHistory ∧
    (∀ k, (mapGet s.lastRuleTrigger k).isSome →
      (mapGet (recordEvent s now e).1.lastRuleTrigger k).isSome) := by
  obtain ⟨h1, h2, h3, h4, h5, h6, h7, h8⟩ := checkRulesFrom_spec now (mkFullEvent now e)
    s.threatRules
    { s with
      events := appendCapped s (mkFullEvent now e)
      metrics := updateMetrics s.metrics (mkFullEvent now e) }
  simp only at h1 h2 h3 h4 h5 h6 h7 h8
  have hlen := appendCapped_length_le s (mkFullEvent now e)
  have htype : (mkFullEvent now e).type = e.type := rfl
  simp only [recordEvent, checkThreatRules]
  refine ⟨?_, ?_, ?_, ?_, ?_, ?_, ?_, ?_⟩
  · intro rid hr
    simpa [htype] using h1 rid hr
  · simp only [h2, updateMetrics_totalEvents]
  · rw [h3, updateMetrics_sumByType]
  · omega
  · exact h5
  · exact h6
  · exact h7
  · exact h8

/-- Registering rules via `addThreatRule` (as the constructor does) touches
only the rule registry. -/
theorem foldl_addThreatRule_spec :
    ∀ (rules : List ThreatDetectionRule) (s : MonitorState),
      (rules.foldl addThreatRule s).metrics = s.metrics ∧
      (rules.foldl addThreatRule s).events = s.events ∧
      (rules.foldl addThreatRule s).lastRuleTrigger = s.lastRuleTrigger ∧
      (rules.foldl addThreatRule s).maxEventsHistory = s.maxEventsHistory := by
  intro rules
  induction rules with
  | nil => intro s; exact ⟨rfl, rfl, rfl, rfl⟩
  | cons r rest ih =>
    intro s
    simpa [addThreatRule] using ih (addThreatRule s r)

theorem mkSecurityMonitor_metrics (cfg : MonitorConfig) :
    (mkSecurityMonitor cfg).metrics = initializeMetrics ∧
      (mkSecurityMonitor cfg).events = [] ∧
      (mkSecurityMonitor cfg).lastRuleTrigger = [] := by
  rw [mkSecurityMonitor]
  obtain ⟨d1, d2, d3, _⟩ := foldl_addThreatRule_spec defaultThreatRules
    { events := []
      metrics := initializeMetrics
      threatRules := []
      lastRuleTrigger := []
      maxEventsHistory := jsOr cfg.maxEventsHistory 10000 }
  obtain ⟨c1, c2, c3, _⟩ := foldl_addThreatRule_spec cfg.threatDetectionRules
    (defaultThreatRules.foldl addThreatRule
      { events := []
        metrics := initializeMetrics
        threatRules := []
        lastRuleTrigger := []
        maxEventsHistory := jsOr cfg.maxEventsHistory 10000 })
  simp only at d1 d2 d3
  exact ⟨c1.trans d1, c2.trans d2, c3.trans d3⟩

/-- Accumulated totals over a run of `recordEvent` calls. -/
theorem runEvents_totals :
    ∀ (calls : List (Nat × EventInput)) (s : MonitorState),
      (runEvents s calls).metrics.totalEvents
          = s.metrics.totalEvents + calls.length + (allFired s calls).length ∧
      sumByType (runEvents s calls).metrics.eventsByType
          = sumByType s.metrics.eventsByType + calls.length + (allFired s calls).length := by
  intro calls
  induction calls with
  | nil => intro s; simp [runEvents, allFired]
  | cons c rest ih =>
    intro s
    obtain ⟨cn, ce⟩ := c
    obtain ⟨_, h2, h3, _, _, _, _, _⟩ := recordEvent_spec s cn ce
    obtain ⟨i1, i2⟩ := ih (recordEvent s cn ce).1
    constructor
    · simp only [runEvents, allFired, List.length_cons, List.length_append]
      omega
    · simp only [runEvents, allFired, List.length_cons, List.length_append]
      omega

/-- In a list with duplicate-free keys, a key determines its value. -/
theorem nodup_keys_unique {κ α : Type} [DecidableEq κ] :
    ∀ (l : List (κ × α)), (l.map Prod.fst).Nodup →
      ∀ (k : κ) (v v' : α), (k, v) ∈ l → (k, v') ∈ l → v = v' := by
  intro l
  induction l with
  | nil => intro _ k v v' h; cases h
  | cons p rest ih =>
    intro hn k v v' hv hv'
    simp only [List.map_cons, List.nodup_cons] at hn
    rcases List.mem_cons.1 hv with hv | hv <;> rcases List.mem_cons.1 hv' with hv' | hv'
    · rw [← hv] at hv'
      injection hv' with h1 h2
      exact h2.symm
    · exfalso
      apply hn.1
      have hk : p.1 = k := by rw [← hv]
      rw [hk]
      simpa using List.mem_map_of_mem Prod.fst hv'
    · exfalso
      apply hn.1
      have hk : p.1 = k := by rw [← hv']
      rw [hk]
      simpa using List.mem_map_of_mem Prod.fst hv
    · exact ih hn.2 k v v' hv hv'

/-- While a rule's recorded last firing `t` is non-zero and every entry for
its id has a cooldown window still covering `now`, the rule neither fires
nor has its `lastRuleTrigger` entry changed by one pass of the loop. -/
theorem checkRulesFrom_no_fire (now t : Nat) (ev : SecurityEvent) (rid : String)
    (ht : t ≠ 0) :
    ∀ (rs : List (String × ThreatDetectionRule)) (s : MonitorState),
      (∀ rule, (rid, rule) ∈ rs → (now : Int) - (t : Int) < (rule.cooldown : Int)) →
      mapGet s.lastRuleTrigger rid = some t →
      rid ∉ (checkRulesFrom now ev rs s).2.1 ∧
        mapGet (checkRulesFrom now ev rs s).1.lastRuleTrigger rid = some t := by
  intro rs
  induction rs with
  | nil =>
    intro s _ hlt
    exact ⟨by simp [checkRulesFrom], by simpa [checkRulesFrom] using hlt⟩
  | cons hd rest ih =>
    intro s hcool hlt
    obtain ⟨rid', rule'⟩ := hd
    by_cases hty : ev.type ∈ rule'.eventTypes
    · rw [checkRulesFrom, if_pos hty]
      by_cases heq : rid' = rid
      · subst heq
        have hcd : (match mapGet s.lastRuleTrigger rid' with
            | some t => decide (t ≠ 0) && decide ((now : Int) - t < (rule'.cooldown : Int))
            | none => false) = true := by
          rw [hlt]
          simp only [Bool.and_eq_true, decide_eq_true_eq]
          exact ⟨ht, hcool rule' (List.mem_cons_self _ _)⟩
        simp only [hcd, if_true]
        exact ih s (fun r hr => hcool r (List.mem_cons_of_mem _ hr)) hlt
      · have hcool' : ∀ r, (rid, r) ∈ rest → (now : Int) - (t : Int) < (r.cooldown : Int) :=
          fun r hr => hcool r (List.mem_cons_of_mem _ hr)
        cases hcd : (match mapGet s.lastRuleTrigger rid' with
            | some t => decide (t ≠ 0) && decide ((now : Int) - t < (rule'.cooldown : Int))
            | none => false) with
        | true =>
          simp only [hcd, if_true]
          exact ih s hcool' hlt
        | false =>
          simp only [hcd, Bool.false_eq_true, if_false]
          cases hc : rule'.condition now s.events with
          | error msg =>
            exact ⟨by simp, hlt⟩
          | ok b =>
            cases b with
            | false => exact ih s hcool' hlt
            | true =>
              have hlt1 : mapGet (handleThreatDetection
                  { s with lastRuleTrigger := mapSet s.lastRuleTrigger rid' now }
                  now rule' ev).lastRuleTrigger rid = some t := by
                obtain ⟨-, -, -, -, g5, -⟩ := handleThreatDetection_spec
                  { s with lastRuleTrigger := mapSet s.lastRuleTrigger rid' now } now rule' ev
                rw [g5]
                show mapGet (mapSet s.lastRuleTrigger rid' now) rid = some t
                rw [mapGet_mapSet_ne _ _ _ _ heq]
                exact hlt
              obtain ⟨ihn, ihm⟩ := ih (handleThreatDetection
                { s with lastRuleTrigger := mapSet s.lastRuleTrigger rid' now }
                now rule' ev) hcool' hlt1
              refine ⟨?_, ihm⟩
              intro hmem
              rcases List.mem_cons.1 hmem with hmem | hmem
              · exact heq hmem.symm
              · exact ihn hmem
    · rw [checkRulesFrom, if_neg hty]
      exact ih s (fun r hr => hcool r (List.mem_cons_of_mem _ hr)) hlt

/-- `recordEvent`-level cooldown suppression. -/
theorem recordEvent_no_fire (s : MonitorState) (now : Nat) (e : EventInput)
    (rid : String) (t : Nat) (ht : t ≠ 0)
    (hcool : ∀ rule, (rid, rule) ∈ s.threatRules →
      (now : Int) - (t : Int) < (rule.cooldown : Int))
    (hlt : mapGet s.lastRuleTrigger rid = some t) :
    rid ∉ (recordEvent s now e).2.2.1 ∧
      mapGet (recordEvent s now e).1.lastRuleTrigger rid = some t := by
  have h := checkRulesFrom_no_fire now t (mkFullEvent now e) rid ht s.threatRules
    { s with
      events := appendCapped s (mkFullEvent now e)
      metrics := updateMetrics s.metrics (mkFullEvent now e) }
    hcool hlt
  simpa [recordEvent, checkThreatRules] using h

/-- Cooldown suppression across an arbitrary sequence of `recordEvent`
calls whose instants all lie inside the rule's cooldown window. -/
theorem runEvents_no_fire :
    ∀ (calls : List (Nat × EventInput)) (s : MonitorState) (rid : String) (t : Nat),
      t ≠ 0 →
      (∀ c ∈ calls, ∀ rule, (rid, rule) ∈ s.threatRules →
        (c.1 : Int) - (t : Int) < (rule.cooldown : Int)) →
      mapGet s.lastRuleTrigger rid = some t →
      rid ∉ allFired s calls ∧
        mapGet (runEvents s calls).lastRuleTrigger rid = some t := by
  intro calls
  induction calls with
  | nil =>
    intro s rid t _ _ hlt
    exact ⟨by simp [allFired], by simpa [runEvents] using hlt⟩
  | cons c rest ih =>
    intro s rid t ht hcool hlt
    obtain ⟨cn, ce⟩ := c
    obtain ⟨h1, h2⟩ := recordEvent_no_fire s cn ce rid t ht
      (fun rule hr => hcool (cn, ce) (List.mem_cons_self _ _) rule hr) hlt
    have hrules : (recordEvent s cn ce).1.threatRules = s.threatRules :=
      (recordEvent_spec s cn ce).2.2.2.2.2.1
    obtain ⟨i1, i2⟩ := ih (recordEvent s cn ce).1 rid t ht
      (fun c hc rule hr => hcool c (List.mem_cons_of_mem _ hc) rule (by rw [hrules] at hr; exact hr))
      h2
    refine ⟨?_, i2⟩
    simp only [allFired, List.mem_append]
    rintro (h | h)
    · exact h1 h
    · exact i1 h

theorem insertDescBy_mem {α : Type} (key : α → Nat) (x : α) :
    ∀ (l : List α) (y : α), y ∈ insertDescBy key x l → y = x ∨ y ∈ l := by
  intro l
  induction l with
  | nil => intro y hy; simpa [insertDescBy] using hy
  | cons z zs ih =>
    intro y hy
    rw [insertDescBy] at hy
    by_cases hk : key z ≤ key x
    · rw [if_pos hk] at hy
      rcases List.mem_cons.1 hy with hy | hy
      · exact Or.inl hy
      · exact Or.inr hy
    · rw [if_neg hk] at hy
      rcases List.mem_cons.1 hy with hy | hy
      · exact Or.inr (hy ▸ List.mem_cons_self z zs)
      · rcases ih y hy with hy | hy
        · exact Or.inl hy
        · exact Or.inr (List.mem_cons_of_mem _ hy)

theorem insertDescBy_sorted {α : Type} (key : α → Nat) (x : α) :
    ∀ l : List α, l.Pairwise (fun a b => key b ≤ key a) →
      (insertDescBy key x l).Pairwise (fun a b => key b ≤ key a) := by
  intro l
  induction l with
  | nil => intro _; simp [insertDescBy]
  | cons y ys ih =>
    intro h
    obtain ⟨hy, hys⟩ := List.pairwise_cons.1 h
    rw [insertDescBy]
    by_cases hk : key y ≤ key x
    · rw [if_pos hk]
      refine List.Pairwise.cons ?_ h
      intro z hz
      rcases List.mem_cons.1 hz with hz | hz
      · rw [hz]; exact hk
      · exact le_trans (hy z hz) hk
    · rw [if_neg hk]
      refine List.Pairwise.cons ?_ (ih hys)
      intro z hz
      rcases insertDescBy_mem key x ys z hz with hz | hz
      · rw [hz]; omega
      · exact hy z hz

theorem sortDescBy_sorted {α : Type} (key : α → Nat) :
    ∀ l : List α, (sortDescBy key l).Pairwise (fun a b => key b ≤ key a) := by
  intro l
  induction l with
  | nil => simp [sortDescBy]
  | cons x xs ih => exact insertDescBy_sorted key x _ ih

/-- Every `updateTopSources` output is a descending top-10 list. -/
theorem updateTopSources_spec (tops : List SourceCount) (src : String) :
    (updateTopSources tops src).length ≤ 10 ∧
      (updateTopSources tops src).Pairwise (fun a b => b.count ≤ a.count) := by
  rw [updateTopSources]
  constructor
  · exact List.length_take_le 10 _
  · exact List.Pairwise.sublist (List.take_sublist 10 _) (sortDescBy_sorted _ _)

theorem checkRulesFrom_topSources (now : Nat) (ev : SecurityEvent) :
    ∀ (rs : List (String × ThreatDetectionRule)) (s : MonitorState),
      (s.metrics.topSources.length ≤ 10 ∧
        s.metrics.topSources.Pairwise (fun a b => b.count ≤ a.count)) →
      ((checkRulesFrom now ev rs s).1.metrics.topSources.length ≤ 10 ∧
        (checkRulesFrom now ev rs s).1.metrics.topSources.Pairwise
          (fun a b => b.count ≤ a.count)) := by
  intro rs
  induction rs with
  | nil =>
    intro s h
    simpa [checkRulesFrom] using h
  | cons hd rest ih =>
    intro s h
    obtain ⟨rid, rule⟩ := hd
    by_cases hty : ev.type ∈ rule.eventTypes
    · rw [checkRulesFrom, if_pos hty]
      cases hcd : (match mapGet s.lastRuleTrigger rid with
          | some t => decide (t ≠ 0) && decide ((now : Int) - t < (rule.cooldown : Int))
          | none => false) with
      | true =>
        simp only [hcd, if_true]
        exact ih s h
      | false =>
        simp only [hcd, Bool.false_eq_true, if_false]
        cases hc : rule.condition now s.events with
        | error msg => simpa using h
        | ok b =>
          cases b with
          | false =>
            simp only [hc]
            exact ih s h
          | true =>
            simp only [hc]
            exact ih _ (updateTopSources_spec _ _)
    · rw [checkRulesFrom, if_neg hty]
      exact ih s h

theorem recordEvent_topSources (s : MonitorState) (now : Nat) (e : EventInput) :
    (recordEvent s now e).1.metrics.topSources.length ≤ 10 ∧
      (recordEvent s now e).1.metrics.topSources.Pairwise (fun a b => b.count ≤ a.count) := by
  simp only [recordEvent, checkThreatRules]
  exact checkRulesFrom_topSources now (mkFullEvent now e) s.threatRules _
    (updateTopSources_spec _ _)

theorem runEvents_topSources :
    ∀ (calls : List (Nat × EventInput)) (s : MonitorState),
      (s.metrics.topSources.length ≤ 10 ∧
        s.metrics.topSources.Pairwise (fun a b => b.count ≤ a.count)) →
      ((runEvents s calls).metrics.topSources.length ≤ 10 ∧
        (runEvents s calls).metrics.topSources.Pairwise (fun a b => b.count ≤ a.count)) := by
  intro calls
  induction calls with
  | nil => intro s h; simpa [runEvents] using h
  | cons c rest ih =>
    intro s h
    obtain ⟨cn, ce⟩ := c
    exact ih (recordEvent s cn ce).1 (recordEvent_topSources s cn ce)

end MonitorLemmas

/-- C6 (amended): for every run of `recordEvent` calls from a fresh monitor,
`topSources` holds at most 10 entries sorted descending by count.  The
original first-seen tie-break clause is dropped: the stable re-sort keeps
the relative order of the *previous* list among equal counts (see the
counterexample), which need not be first-seen order. -/
theorem c6_top_sources_amended (cfg : MonitorConfig) (calls : List (Nat × EventInput)) :
    (runEvents (mkSecurityMonitor cfg) calls).metrics.topSources.length ≤ 10 ∧
      (runEvents (mkSecurityMonitor cfg) calls).metrics.topSources.Pairwise
        (fun a b => b.count ≤ a.count) := by
  apply runEvents_topSources
  obtain ⟨hm, -, -⟩ := mkSecurityMonitor_metrics cfg
  rw [hm]
  exact ⟨by simp [initializeMetrics], by simp [initializeMetrics]⟩

/-- C9: `getRecentEvents` with `limit = 0` returns the whole stored history
(`slice(-0)` is `slice(0)`), and for positive `limit` it returns the last
`min limit length` events in stored (oldest-first) order. -/
theorem c9_get_recent_events (s : MonitorState) (limit : Nat) :
    getRecentEvents s 0 = s.events ∧
      (0 < limit →
        getRecentEvents s limit = s.events.drop (s.events.length - limit) ∧
          (getRecentEvents s limit).length = min limit s.events.length) := by
  constructor
  · simp [getRecentEvents, jsSlice]
  · intro hp
    have hstart : (-(limit : Int)) < 0 := by omega
    have hdrop : getRecentEvents s limit = s.events.drop (s.events.length - limit) := by
      rw [getRecentEvents, jsSlice]
      simp only [if_pos hstart]
      congr 1
      rcases Nat.le_total limit s.events.length with h | h
      · rw [max_eq_left (by omega : (0 : Int) ≤ (s.events.length : Int) + -(limit : Int))]
        omega
      · rw [max_eq_right (by omega : (s.events.length : Int) + -(limit : Int) ≤ 0)]
        omega
    refine ⟨hdrop, ?_⟩
    rw [hdrop, List.length_drop]
    omega

section CountLemmas

theorem jsOr_some (n : Nat) : jsOr (some n) 0 = n := by
  rw [jsOr]
  split <;> omega

theorem countSource_cons_eq (e : SecurityEvent) (rest : List SecurityEvent) (src : String)
    (h : e.source = src) : countSource (e :: rest) src = countSource rest src + 1 := by
  simp [countSource, h]

theorem countSource_cons_ne (e : SecurityEvent) (rest : List SecurityEvent) (src : String)
    (h : ¬ e.source = src) : countSource (e :: rest) src = countSource rest src := by
  simp [countSource, h]

theorem foldCounts_get_some :
    ∀ (events : List SecurityEvent) (m : List (String × Nat)) (src : String) (n : Nat),
      mapGet m src = some n →
      mapGet (events.foldl (fun m e => bumpCount m e.source) m) src
        = some (n + countSource events src) := by
  intro events
  induction events with
  | nil =>
    intro m src n h
    simpa [countSource] using h
  | cons e rest ih =>
    intro m src n h
    simp only [List.foldl_cons]
    by_cases hsrc : e.source = src
    · have hbump : mapGet (bumpCount m e.source) src = some (n + 1) := by
        rw [bumpCount, hsrc, mapGet_mapSet_self, h, jsOr_some]
      rw [ih _ src (n + 1) hbump, countSource_cons_eq e rest src hsrc]
      congr 1
      omega
    · have hbump : mapGet (bumpCount m e.source) src = some n := by
        rw [bumpCount, mapGet_mapSet_ne _ _ _ _ hsrc]
        exact h
      rw [ih _ src n hbump, countSource_cons_ne e rest src hsrc]

theorem foldCounts_get_none :
    ∀ (events : List SecurityEvent) (m : List (String × Nat)) (src : String),
      mapGet m src = none →
      mapGet (events.foldl (fun m e => bumpCount m e.source) m) src
        = if countSource events src = 0 then none
          else some (countSource events src) := by
  intro events
  induction events with
  | nil =>
    intro m src h
    simpa [countSource] using h
  | cons e rest ih =>
    intro m src h
    simp only [List.foldl_cons]
    by_cases hsrc : e.source = src
    · have hbump : mapGet (bumpCount m e.source) src = some 1 := by
        rw [bumpCount, hsrc, mapGet_mapSet_self, h]
        rfl
      rw [foldCounts_get_some rest _ src 1 hbump, countSource_cons_eq e rest src hsrc]
      rw [if_neg (by omega)]
      congr 1
      omega
    · have hbump : mapGet (bumpCount m e.source) src = none := by
        rw [bumpCount, mapGet_mapSet_ne _ _ _ _ hsrc]
        exact h
      rw [ih _ src hbump, countSource_cons_ne e rest src hsrc]

theorem mapSet_keys_nodup {κ α : Type} [DecidableEq κ] (m : List (κ × α)) (k : κ) (v : α)
    (h : (m.map Prod.fst).Nodup) : ((mapSet m k v).map Prod.fst).Nodup := by
  rw [mapSet]
  by_cases hm : m.any (fun p => p.1 == k) = true
  · rw [if_pos hm]
    have heq : (m.map (fun p => if p.1 = k then (k, v) else p)).map Prod.fst
        = m.map Prod.fst := by
      rw [List.map_map]
      apply List.map_congr_left
      intro p _
      by_cases hp : p.1 = k
      · simp [hp]
      · simp [hp]
    rw [heq]
    exact h
  · rw [if_neg hm]
    rw [List.map_append]
    rw [List.nodup_append]
    refine ⟨h, List.nodup_singleton k, ?_⟩
    intro a ha hb
    simp only [List.map_cons, List.map_nil, List.mem_singleton] at hb
    subst hb
    rcases List.mem_map.1 ha with ⟨p, hp, hpk⟩
    exact hm (List.any_eq_true.2 ⟨p, hp, by simp [hpk]⟩)

theorem foldCounts_keys_nodup :
    ∀ (events : List SecurityEvent) (m : List (String × Nat)),
      (m.map Prod.fst).Nodup →
      ((events.foldl (fun m e => bumpCount m e.source) m).map Prod.fst).Nodup := by
  intro events
  induction events with
  | nil => intro m h; simpa using h
  | cons e rest ih =>
    intro m h
    simp only [List.foldl_cons]
    exact ih _ (mapSet_keys_nodup _ _ _ h)

theorem mem_iff_mapGet_of_nodup {κ α : Type} [DecidableEq κ] :
    ∀ (m : List (κ × α)), (m.map Prod.fst).Nodup →
      ∀ (k : κ) (v : α), ((k, v) ∈ m ↔ mapGet m k = some v) := by
  intro m
  induction m with
  | nil => intro _ k v; simp [mapGet]
  | cons p rest ih =>
    intro hn k v
    simp only [List.map_cons, List.nodup_cons] at hn
    constructor
    · intro hm
      rcases List.mem_cons.1 hm with hm | hm
      · rw [mapGet, ← hm]
        simp
      · have hk : k ∈ rest.map Prod.fst := by
          simpa using List.mem_map_of_mem Prod.fst hm
        have hp : p.1 ≠ k := fun h => hn.1 (h ▸ hk)
        rw [mapGet, if_neg hp]
        exact (ih hn.2 k v).1 hm
    · intro hg
      rw [mapGet] at hg
      by_cases hp : p.1 = k
      · rw [if_pos hp] at hg
        injection hg with hg
        have hpv : (k, v) = p := by
          rw [← hp, ← hg]
        rw [hpv]
        exact List.mem_cons_self p rest
      · rw [if_neg hp] at hg
        exact List.mem_cons_of_mem _ ((ih hn.2 k v).2 hg)

end CountLemmas

/-- C8: `generateReport(start, end).suspiciousSources` contains exactly the
sources with strictly more than 10 events with timestamp in
`[start, end]` (any severity), while `isSuspiciousSource` uses the
deliberately different live heuristic: strictly more than 5 high-or-critical
events from the source inside the trailing window. -/
theorem c8_suspicious_sources (s : MonitorState) (startTime endTime : Nat)
    (src : String) (now timeWindow : Nat) :
    (src ∈ (generateReport s startTime endTime).suspiciousSources ↔
        10 < countSource (getEventsInRange s startTime endTime) src) ∧
      (isSuspiciousSource s now src timeWindow = true ↔
        5 < (s.events.filter (fun ev =>
          ev.source == src &&
            decide ((now : Int) - (timeWindow : Int) < (ev.timestamp : Int)) &&
            (ev.severity == Severity.high || ev.severity == Severity.critical))).length) := by
  have hnodup := foldCounts_keys_nodup (getEventsInRange s startTime endTime) [] (by simp)
  constructor
  · simp only [generateReport, List.mem_map, List.mem_filter, decide_eq_true_eq]
    constructor
    · rintro ⟨p, ⟨hpmem, hp10⟩, hpsrc⟩
      have hget := (mem_iff_mapGet_of_nodup _ hnodup p.1 p.2).1 hpmem
      rw [foldCounts_get_none (getEventsInRange s startTime endTime) [] p.1 rfl] at hget
      subst hpsrc
      by_cases hz : countSource (getEventsInRange s startTime endTime) p.1 = 0
      · rw [if_pos hz] at hget
        cases hget
      · rw [if_neg hz] at hget
        injection hget with hget
        omega
    · intro h10
      have hcount := foldCounts_get_none (getEventsInRange s startTime endTime) [] src rfl
      rw [if_neg (by omega)] at hcount
      exact ⟨(src, countSource (getEventsInRange s startTime endTime) src),
        ⟨(mem_iff_mapGet_of_nodup _ hnodup src _).2 hcount, h10⟩, rfl⟩
  · simp [isSuspiciousSource]

/-- Closed instance of `c9_get_recent_events` on a four-event log with
`limit = 0` and `limit = 3`. -/
theorem c9_witness :
    getRecentEvents tieBreakRun 0 = tieBreakRun.events ∧
      getRecentEvents tieBreakRun 3
        = tieBreakRun.events.drop (tieBreakRun.events.length - 3) := by
  exact ⟨(c9_get_recent_events tieBreakRun 3).1,
    ((c9_get_recent_events tieBreakRun 3).2 (by decide)).1⟩

/-- C2 (amended): from a fresh monitor, `totalEvents` equals the number of
`recordEvent` calls PLUS the number of synthetic threat events appended by
fired rules (each firing runs `updateMetrics` once more), and the sum of
`eventsByType` over the full enumeration always equals `totalEvents`. -/
theorem c2_total_events_amended (cfg : MonitorConfig) (calls : List (Nat × EventInput)) :
    (runEvents (mkSecurityMonitor cfg) calls).metrics.totalEvents
        = calls.length + (allFired (mkSecurityMonitor cfg) calls).length ∧
      sumByType (runEvents (mkSecurityMonitor cfg) calls).metrics.eventsByType
        = (runEvents (mkSecurityMonitor cfg) calls).metrics.totalEvents := by
  obtain ⟨h1, h2⟩ := runEvents_totals calls (mkSecurityMonitor cfg)
  obtain ⟨hm, _, _⟩ := mkSecurityMonitor_metrics cfg
  have hz : (mkSecurityMonitor cfg).metrics.totalEvents = 0 := by rw [hm]; rfl
  have hsz : sumByType (mkSecurityMonitor cfg).metrics.eventsByType = 0 := by rw [hm]; rfl
  constructor
  · omega
  · omega

/-- C5: cooldown suppression and refire.  Part one: if a rule last fired at
a (non-zero) instant `t` recorded in `lastRuleTrigger`, then across any
sequence of `recordEvent` calls whose instants all lie before `t + C`
(`C` the rule's cooldown) the rule never fires again — no matter how many
qualifying events occur — and its recorded firing instant is untouched.
Part two: at an instant `now ≥ t + C`, a matching event whose condition
holds makes the rule fire again.  (`t ≠ 0` reflects the source's
`lastTrigger && ...` truthiness guard; `Date.now()` is never 0.) -/
theorem c5_cooldown_suppression_and_refire
    (s : MonitorState) (rid : String) (rule : ThreatDetectionRule) (t : Nat)
    (calls : List (Nat × EventInput)) (now : Nat) (e : EventInput) :
    ((s.threatRules.map Prod.fst).Nodup → (rid, rule) ∈ s.threatRules →
      mapGet s.lastRuleTrigger rid = some t → t ≠ 0 →
      (∀ c ∈ calls, c.1 < t + rule.cooldown) →
      rid ∉ allFired s calls ∧
        mapGet (runEvents s calls).lastRuleTrigger rid = some t) ∧
    (s.threatRules = [(rule.id, rule)] →
      mapGet s.lastRuleTrigger rule.id = some t →
      t + rule.cooldown ≤ now →
      e.type ∈ rule.eventTypes →
      rule.condition now (appendCapped s (mkFullEvent now e)) = Except.ok true →
      (recordEvent s now e).2.2.1 = [rule.id]) := by
  constructor
  · intro hnd hmem hlt ht hwin
    apply runEvents_no_fire calls s rid t ht ?_ hlt
    intro c hc rule' hmem'
    have hr : rule' = rule := nodup_keys_unique s.threatRules hnd rid rule' rule hmem' hmem
    subst hr
    have := hwin c hc
    omega
  · intro hreg hlt hcd hty hcond
    have hg : (decide (t ≠ 0) && decide ((now : Int) - (t : Int) < (rule.cooldown : Int)))
        = false := by
      have hlt' : ¬ ((now : Int) - (t : Int) < (rule.cooldown : Int)) := by omega
      simp [hlt']
    simp only [recordEvent, checkThreatRules]
    simp only [hreg]
    rw [checkRulesFrom]
    rw [if_pos (show (mkFullEvent now e).type ∈ rule.eventTypes from hty)]
    simp only [hlt, hg, Bool.false_eq_true, if_false]
    simp only [show ({ s with
        events := appendCapped s (mkFullEvent now e)
        metrics := updateMetrics s.metrics (mkFullEvent now e) } : MonitorState).events
      = appendCapped s (mkFullEvent now e) from rfl, hcond]
    simp [checkRulesFrom]

/-- Closed instance of `c5_cooldown_suppression_and_refire`: with the last
firing at 5 and cooldown 1000, calls at 6 and 7 never refire the rule, and
a matching call at 1005 does. -/
theorem c5_witness :
    ("always_fire" ∉ allFired c5State [(6, xssInput "a"), (7, xssInput "b")] ∧
        mapGet (runEvents c5State [(6, xssInput "a"), (7, xssInput "b")]).lastRuleTrigger
          "always_fire" = some 5) ∧
      (recordEvent c5State 1005 (xssInput "a")).2.2.1 = [alwaysRule.id] := by
  constructor
  · exact (c5_cooldown_suppression_and_refire c5State "always_fire" alwaysRule 5
      [(6, xssInput "a"), (7, xssInput "b")] 1005 (xssInput "a")).1
      (by decide) (by simp [c5State]) rfl (by decide) (by decide)
  · exact (c5_cooldown_suppression_and_refire c5State "always_fire" alwaysRule 5
      [(6, xssInput "a"), (7, xssInput "b")] 1005 (xssInput "a")).2
      rfl rfl (by decide) (by decide) rfl

/-- C10: `addThreatRule` with an existing id replaces the rule definition
(`mapGet` then yields the new rule) but leaves `lastRuleTrigger` untouched,
so the replacement stays suppressed while `now - lastFiredAt < cooldown`
(with the non-zero truthiness proviso of the source's guard); only
`removeThreatRule` and `clear` erase the cooldown entry — `recordEvent`
never drops one. -/
theorem c10_rule_replacement_preserves_cooldown
    (s : MonitorState) (rule : ThreatDetectionRule) (ruleId : String)
    (t now : Nat) (e : EventInput) :
    (addThreatRule s rule).lastRuleTrigger = s.lastRuleTrigger ∧
      mapGet (addThreatRule s rule).threatRules rule.id = some rule ∧
      (mapGet s.lastRuleTrigger rule.id = some t → t ≠ 0 →
        (now : Int) - (t : Int) < (rule.cooldown : Int) →
        rule.id ∉ (recordEvent (addThreatRule s rule) now e).2.2.1 ∧
          mapGet (recordEvent (addThreatRule s rule) now e).1.lastRuleTrigger rule.id
            = some t) ∧
      mapGet (removeThreatRule s ruleId).lastRuleTrigger ruleId = none ∧
      mapGet (removeThreatRule s ruleId).threatRules ruleId = none ∧
      (clear s).lastRuleTrigger = [] ∧
      (∀ k, (mapGet s.lastRuleTrigger k).isSome →
        (mapGet (recordEvent s now e).1.lastRuleTrigger k).isSome) := by
  refine ⟨rfl, mapGet_mapSet_self _ _ _, ?_, mapGet_mapDelete_self _ _,
    mapGet_mapDelete_self _ _, rfl, (recordEvent_spec s now e).2.2.2.2.2.2.2⟩
  intro hlt ht hcool
  apply recordEvent_no_fire (addThreatRule s rule) now e rule.id t ht ?_ hlt
  intro rule' hmem
  have hr : rule' = rule := mem_mapSet_self s.threatRules rule.id rule rule' hmem
  rw [hr]
  exact hcool

/-- Closed instance of `c10_rule_replacement_preserves_cooldown` at a
monitor whose rule last fired at 5, replacing the rule and recording a
matching event at 6 (still inside the cooldown window). -/
theorem c10_witness :
    (addThreatRule c5State alwaysRule).lastRuleTrigger = c5State.lastRuleTrigger ∧
      alwaysRule.id ∉ (recordEvent (addThreatRule c5State alwaysRule) 6 (xssInput "a")).2.2.1 ∧
      mapGet (removeThreatRule c5State "always_fire").lastRuleTrigger "always_fire" = none := by
  refine ⟨?_, ?_, ?_⟩
  · exact (c10_rule_replacement_preserves_cooldown c5State alwaysRule "always_fire"
      5 6 (xssInput "a")).1
  · exact ((c10_rule_replacement_preserves_cooldown c5State alwaysRule "always_fire"
      5 6 (xssInput "a")).2.2.1 rfl (by decide) (by decide)).1
  · exact (c10_rule_replacement_preserves_cooldown c5State alwaysRule "always_fire"
      5 6 (xssInput "a")).2.2.2.1

/-- C7: rules are evaluated only against the externally recorded event: every
fired rule is a registered rule whose `eventTypes` contains the external
event's type (the synthetic anomalous-behavior events appended by
`handleThreatDetection` are never fed back into `checkThreatRules`), each
firing appends one synthetic event and updates the metrics
(`totalEvents` grows by exactly `1 + fired`), and the work is bounded: at
most one firing per registered rule and at most `1 + fired` new events, so
`recordEvent` — a total function in this embedding — terminates without
re-entrant evaluation. -/
theorem c7_no_reentrant_evaluation (s : MonitorState) (now : Nat) (e : EventInput) :
    (∀ rid ∈ (recordEvent s now e).2.2.1,
        ∃ rule, (rid, rule) ∈ s.threatRules ∧ e.type ∈ rule.eventTypes) ∧
      (recordEvent s now e).2.2.1.length ≤ s.threatRules.length ∧
      (recordEvent s now e).1.metrics.totalEvents
          = s.metrics.totalEvents + 1 + (recordEvent s now e).2.2.1.length ∧
      (recordEvent s now e).1.events.length
          ≤ s.events.length + 1 + (recordEvent s now e).2.2.1.length := by
  obtain ⟨h1, h2, _, h4, h5, _, _, _⟩ := recordEvent_spec s now e
  exact ⟨h1, h5, h2, h4⟩

/-- Closed instance of `c7_no_reentrant_evaluation` at a concrete monitor
and event. -/
theorem c7_witness :
    (recordEvent capOneMonitor 1 (xssInput "a")).2.2.1.length
        ≤ capOneMonitor.threatRules.length ∧
      (recordEvent capOneMonitor 1 (xssInput "a")).1.metrics.totalEvents
          = capOneMonitor.metrics.totalEvents + 1
            + (recordEvent capOneMonitor 1 (xssInput "a")).2.2.1.length :=
  ⟨(c7_no_reentrant_evaluation capOneMonitor 1 (xssInput "a")).2.1,
   (c7_no_reentrant_evaluation capOneMonitor 1 (xssInput "a")).2.2.1⟩

/-- C1: the spec's capacity invariant — "the stored event list never holds
more than `maxEventsHistory` events ... even when threat rules fire" — is
violated by the code: `handleThreatDetection` pushes the synthetic event
without the eviction step that `recordEvent` performs.  On a monitor with
capacity 1 and an always-firing rule, a single `recordEvent` leaves two
events in the log. -/
theorem c1_cap_violated_eval :
    capOneMonitor.maxEventsHistory = 1 ∧
      (recordEvent capOneMonitor 1 (xssInput "a")).1.events.length = 2 := by
  constructor
  · rfl
  · rfl

/-- C3: a throwing rule condition is not caught: the exception propagates
out of `recordEvent`, the remaining rules are not evaluated (the
always-firing rule registered after the throwing one fires nothing and no
synthetic event is appended), and no internal low-severity event records
the failure — only the externally recorded event is in the log. -/
theorem c3_exception_propagates_eval :
    (recordEvent throwingMonitor 5 (xssInput "a")).2.2.2 = some "boom" ∧
      (recordEvent throwingMonitor 5 (xssInput "a")).2.2.1 = [] ∧
      (recordEvent throwingMonitor 5 (xssInput "a")).1.events.length = 1 := by
  refine ⟨rfl, rfl, rfl⟩

/-- C2 (counterexample): on a fresh monitor with an always-firing rule, one
`recordEvent` call yields `totalEvents = 2`, not `1`: the synthetic threat
event also runs `updateMetrics`, so `totalEvents` is not the number of
`recordEvent` calls. -/
theorem c2_counterexample :
    (recordEvent capOneMonitor 1 (xssInput "a")).1.metrics.totalEvents = 2 ∧ (2 : Nat) ≠ 1 := by
  exact ⟨rfl, by decide⟩

/-- C6 (counterexample): after recording events from sources A, B, B, A both
sources have count 2, A was seen first, yet `topSources` lists B before A —
the bumped entry keeps its pre-sort position under the stable re-sort, so
ties are not broken by first-seen order. -/
theorem c6_counterexample :
    tieBreakRun.metrics.topSources =
        [{ source := "B", count := 2 }, { source := "A", count := 2 }] ∧
      ¬ firstSeenTieBreak tieBreakRun.events tieBreakRun.metrics.topSources := by
  constructor
  · rfl
  · intro h
    have h2 := h
    rw [firstSeenTieBreak] at h2
    revert h2
    decide

section RateLimiterLemmas

theorem jsOr_pos (x : Option Nat) (d : Nat) (hd : 0 < d) : 0 < jsOr x d := by
  rcases x with _ | n
  · exact hd
  · rw [jsOr]
    by_cases hn : n = 0
    · simpa [hn] using hd
    · simp only [hn, if_false]
      omega

/-- The effective request cap is always strictly positive: a zero or absent
configuration value falls through `||` to a positive default. -/
theorem effMax_pos (c : AdvancedRateLimitOptions) : 0 < effMax c :=
  jsOr_pos _ _ (jsOr_pos _ _ (by omega))

theorem isAllowed_fresh (s : RateLimiterState) (now : Nat) (k : String)
    (hget : mapGet s.store k = none) :
    (isAllowed s now k).2.allowed = true ∧
      (isAllowed s now k).2.remaining = effMax s.config - 1 ∧
      mapGet (isAllowed s now k).1.store k = some ⟨1, now + effWindow s.config, 0⟩ ∧
      (isAllowed s now k).1.config = s.config := by
  have hle : ¬ (effMax s.config ≤ 0) := by
    have := effMax_pos s.config
    omega
  refine ⟨?_, ?_, ?_, ?_⟩ <;> simp [isAllowed, hget, hle, mapGet_mapSet_self]

theorem isAllowed_step (s : RateLimiterState) (now : Nat) (k : String)
    (c R v : Nat) (hget : mapGet s.store k = some ⟨c, R, v⟩)
    (hc : c < effMax s.config) (hR : now ≤ R) :
    (isAllowed s now k).2.allowed = true ∧
      (isAllowed s now k).2.remaining = effMax s.config - (c + 1) ∧
      mapGet (isAllowed s now k).1.store k = some ⟨c + 1, R, v⟩ ∧
      (isAllowed s now k).1.config = s.config := by
  have hnR : ¬ (R < now) := by omega
  have hle : ¬ (effMax s.config ≤ c) := by omega
  refine ⟨?_, ?_, ?_, ?_⟩ <;> simp [isAllowed, hget, hnR, hle, mapGet_mapSet_self]

theorem isAllowed_denied (s : RateLimiterState) (now : Nat) (k : String)
    (c R v : Nat) (hget : mapGet s.store k = some ⟨c, R, v⟩)
    (hc : effMax s.config ≤ c) (hR : now ≤ R) :
    (isAllowed s now k).2.allowed = false ∧
      (isAllowed s now k).2.remaining = 0 ∧
      (isAllowed s now k).2.retryAfter = some (ceilDiv (R - now) 1000) ∧
      mapGet (isAllowed s now k).1.store k = some ⟨c, R, v + 1⟩ := by
  have hnR : ¬ (R < now) := by omega
  refine ⟨?_, ?_, ?_, ?_⟩ <;> simp [isAllowed, hget, hnR, hc, mapGet_mapSet_self]

/-- A run of calls that all stay within the entry's current window and
below the cap: every call is allowed and the counter ends at
`c + ts.length`. -/
theorem runCalls_fill (k : String) :
    ∀ (ts : List Nat) (s : RateLimiterState) (c R v : Nat),
      mapGet s.store k = some ⟨c, R, v⟩ →
      c + ts.length ≤ effMax s.config →
      (∀ t ∈ ts, t ≤ R) →
      (∀ r ∈ (runCalls s k ts).2, r.allowed = true) ∧
        mapGet (runCalls s k ts).1.store k = some ⟨c + ts.length, R, v⟩ ∧
        (runCalls s k ts).1.config = s.config := by
  intro ts
  induction ts with
  | nil =>
    intro s c R v hget _ _
    exact ⟨by simp [runCalls], by simpa [runCalls] using hget, rfl⟩
  | cons t ts ih =>
    intro s c R v hget hle htR
    have hlt : c < effMax s.config := by
      simp only [List.length_cons] at hle
      omega
    obtain ⟨a1, a2, a3, a4⟩ := isAllowed_step s t k c R v hget hlt
      (htR t (List.mem_cons_self _ _))
    obtain ⟨b1, b2, b3⟩ := ih (isAllowed s t k).1 (c + 1) R v a3
      (by rw [a4]; simp only [List.length_cons] at hle; omega)
      (fun u hu => htR u (List.mem_cons_of_mem _ hu))
    refine ⟨?_, ?_, ?_⟩
    · intro r hr
      rw [runCalls] at hr
      simp only [List.mem_cons] at hr
      rcases hr with hr | hr
      · rw [hr]; exact a1
      · exact b1 r hr
    · rw [runCalls]
      have hlen : c + (t :: ts).length = c + 1 + ts.length := by
        simp only [List.length_cons]
        omega
      rw [hlen]
      exact b2
    · rw [runCalls]
      rw [b3, a4]

end RateLimiterLemmas

/-- C4: with the configured (hence strictly positive) window `W` and cap
`M`, starting from a fresh key, `M` calls at instants strictly inside the
window starting at the first call are all allowed, and one more call
strictly inside that window is denied with `remaining = 0`, the entry's
violation count incremented from 0 to 1, and
`retryAfterSeconds = ceil((resetAt - now)/1000)`, which is strictly
positive. -/
theorem c4_rate_limit_denies_after_max (cfg : AdvancedRateLimitOptions) (k : String)
    (t0 tDeny : Nat) (rest : List Nat)
    (hlen : rest.length + 1 = effMax (mkRateLimiter cfg).config)
    (hrest : ∀ t ∈ rest, t < t0 + effWindow (mkRateLimiter cfg).config)
    (hdeny : tDeny < t0 + effWindow (mkRateLimiter cfg).config) :
    (∀ r ∈ (runCalls (mkRateLimiter cfg) k (t0 :: rest)).2, r.allowed = true) ∧
      (isAllowed (runCalls (mkRateLimiter cfg) k (t0 :: rest)).1 tDeny k).2.allowed = false ∧
      (isAllowed (runCalls (mkRateLimiter cfg) k (t0 :: rest)).1 tDeny k).2.remaining = 0 ∧
      (isAllowed (runCalls (mkRateLimiter cfg) k (t0 :: rest)).1 tDeny k).2.retryAfter
        = some (ceilDiv (t0 + effWindow (mkRateLimiter cfg).config - tDeny) 1000) ∧
      0 < ceilDiv (t0 + effWindow (mkRateLimiter cfg).config - tDeny) 1000 ∧
      mapGet (isAllowed (runCalls (mkRateLimiter cfg) k (t0 :: rest)).1 tDeny k).1.store k
        = some ⟨effMax (mkRateLimiter cfg).config,
            t0 + effWindow (mkRateLimiter cfg).config, 1⟩ := by
  have hget0 : mapGet (mkRateLimiter cfg).store k = none := rfl
  obtain ⟨f1, f2, f3, f4⟩ := isAllowed_fresh (mkRateLimiter cfg) t0 k hget0
  obtain ⟨g1, g2, g3⟩ := runCalls_fill k rest (isAllowed (mkRateLimiter cfg) t0 k).1 1
    (t0 + effWindow (mkRateLimiter cfg).config) 0 f3
    (by rw [f4]; omega)
    (fun u hu => le_of_lt (hrest u hu))
  have hrun1 : (runCalls (mkRateLimiter cfg) k (t0 :: rest)).1
      = (runCalls (isAllowed (mkRateLimiter cfg) t0 k).1 k rest).1 := by
    rw [runCalls]
  have hrun2 : (runCalls (mkRateLimiter cfg) k (t0 :: rest)).2
      = (isAllowed (mkRateLimiter cfg) t0 k).2
        :: (runCalls (isAllowed (mkRateLimiter cfg) t0 k).1 k rest).2 := by
    rw [runCalls]
  have hcfg : (runCalls (mkRateLimiter cfg) k (t0 :: rest)).1.config
      = (mkRateLimiter cfg).config := by
    rw [hrun1, g3, f4]
  have hstore : mapGet (runCalls (mkRateLimiter cfg) k (t0 :: rest)).1.store k
      = some ⟨1 + rest.length, t0 + effWindow (mkRateLimiter cfg).config, 0⟩ := by
    rw [hrun1, g2]
  obtain ⟨d1, d2, d3, d4⟩ := isAllowed_denied (runCalls (mkRateLimiter cfg) k (t0 :: rest)).1
    tDeny k (1 + rest.length) (t0 + effWindow (mkRateLimiter cfg).config) 0 hstore
    (by rw [hcfg]; omega) (le_of_lt hdeny)
  have hpos : 0 < ceilDiv (t0 + effWindow (mkRateLimiter cfg).config - tDeny) 1000 := by
    rw [ceilDiv]
    exact Nat.div_pos (by omega) (by omega)
  refine ⟨?_, d1, d2, d3, hpos, ?_⟩
  · intro r hr
    rw [hrun2] at hr
    rcases List.mem_cons.1 hr with hr | hr
    · rw [hr]; exact f1
    · exact g1 r hr
  · rw [d4]
    have : 1 + rest.length = effMax (mkRateLimiter cfg).config := by omega
    rw [this]

/-- Closed instance of `c4_rate_limit_denies_after_max`: window 1000 ms,
cap 2, allowed calls at 0 and 1, denied call at 2 with `retryAfter = 1`. -/
theorem c4_witness :
    (isAllowed (runCalls (mkRateLimiter
        { windowMs := some 1000, max := none, maxRequests := some 2 }) "ip" (0 :: [1])).1
        2 "ip").2.allowed = false ∧
      (isAllowed (runCalls (mkRateLimiter
        { windowMs := some 1000, max := none, maxRequests := some 2 }) "ip" (0 :: [1])).1
        2 "ip").2.remaining = 0 ∧
      0 < ceilDiv (0 + effWindow (mkRateLimiter
        { windowMs := some 1000, max := none, maxRequests := some 2 }).config - 2) 1000 := by
  refine ⟨?_, ?_, ?_⟩
  · exact (c4_rate_limit_denies_after_max
      { windowMs := some 1000, max := none, maxRequests := some 2 } "ip" 0 2 [1]
      (by decide) (by decide) (by decide)).2.1
  · exact (c4_rate_limit_denies_after_max
      { windowMs := some 1000, max := none, maxRequests := some 2 } "ip" 0 2 [1]
      (by decide) (by decide) (by decide)).2.2.1
  · exact (c4_rate_limit_denies_after_max
      { windowMs := some 1000, max := none, maxRequests := some 2 } "ip" 0 2 [1]
      (by decide) (by decide) (by decide)).2.2.2.2.1

end SecureKit
